import Mathlib

/-!
# Verification of the crushtileset layer-codec and crush pipeline

A shallow embedding of `crushtileset.py` (classes `Map` and `Tileset`, plus the
free functions `lookup_size` and `do_crushing`).  Python strings are modelled as
`List Char`, Python byte strings as `List Nat` (each entry < 256), Python `int`
as `Nat` where the source only ever holds non-negative values, and as `Int`
where Python's floor division/modulo on possibly-negative values matters
(`Tileset.find_tile`).  A Python function that can raise an exception is
modelled as returning `Except CrushError _`.  The external compression
libraries (`zlib`, `gzip`, `zstandard`) are modelled as an abstract `Codec`
parameter; the libraries' inverse law is taken as a hypothesis where needed.
`base64` is implemented concretely (standard RFC 4648 alphabet, as used by
Python's `base64.b64encode`/`b64decode` on well-formed input).
-/

/-- `str(n)` for a non-negative Python int: the character of one decimal digit. -/
def digitChar (n : Nat) : Char := Char.ofNat (48 + n)

/-- `str(n)` for a non-negative Python int, fuelled so that it is structural
(the fuel is irrelevant once it exceeds `n`, see `natToDigitsF_fuel`). -/
def natToDigitsF : Nat → Nat → List Char
  | 0, n => [digitChar n]
  | fuel + 1, n =>
    if n < 10 then [digitChar n] else natToDigitsF fuel (n / 10) ++ [digitChar (n % 10)]

/-- `str(n)` for a non-negative Python int: canonical decimal rendering. -/
def natToDigits (n : Nat) : List Char := natToDigitsF n n

theorem div10_lt_pow {n f : Nat} (h : n < 10 ^ (f + 2)) : n / 10 < 10 ^ (f + 1) := by
  rw [Nat.div_lt_iff_lt_mul (by omega)]
  calc n < 10 ^ (f + 2) := h
  _ = 10 ^ (f + 1) * 10 := by rw [pow_succ]

theorem natToDigitsF_fuel (f1 : Nat) : ∀ (f2 n : Nat), n < 10 ^ (f1 + 1) →
    n < 10 ^ (f2 + 1) → natToDigitsF f1 n = natToDigitsF f2 n := by
  induction f1 with
  | zero =>
    intro f2 n h1 h2
    match f2 with
    | 0 => rfl
    | f2 + 1 =>
      simp only [natToDigitsF]
      rw [if_pos (by simpa using h1)]
  | succ f1 ih =>
    intro f2 n h1 h2
    match f2 with
    | 0 =>
      simp only [natToDigitsF]
      rw [if_pos (by simpa using h2)]
    | f2 + 1 =>
      simp only [natToDigitsF]
      by_cases h : n < 10
      · rw [if_pos h, if_pos h]
      · rw [if_neg h, if_neg h, ih f2 (n / 10) (div10_lt_pow h1) (div10_lt_pow h2)]

theorem lt_pow_ten (n : Nat) : n < 10 ^ (n + 1) := by
  calc n < 2 ^ n := Nat.lt_two_pow n
  _ ≤ 10 ^ n := Nat.pow_le_pow_left (by omega) n
  _ ≤ 10 ^ (n + 1) := Nat.pow_le_pow_right (by omega) (Nat.le_succ n)

/-- The recursion `natToDigits` satisfies (what `str` computes). -/
theorem natToDigits_eq (n : Nat) :
    natToDigits n = if n < 10 then [digitChar n]
      else natToDigits (n / 10) ++ [digitChar (n % 10)] := by
  unfold natToDigits
  by_cases h : n < 10
  · rw [if_pos h]
    match n, h with
    | 0, _ => rfl
    | m + 1, h => simp only [natToDigitsF]; rw [if_pos h]
  · rw [if_neg h]
    match n, h with
    | m + 1, h =>
      simp only [natToDigitsF]
      rw [if_neg h,
        natToDigitsF_fuel m ((m + 1) / 10) ((m + 1) / 10)
          (div10_lt_pow (lt_pow_ten (m + 1))) (lt_pow_ten ((m + 1) / 10))]

/-- Numeric value of a decimal digit character. -/
def charToVal (c : Char) : Nat := c.toNat - 48

/-- Value of a digit string (used by the model of Python `int(...)`). -/
def parseVal (s : List Char) : Nat := s.foldl (fun a c => a * 10 + charToVal c) 0

/-- Model of Python `int(token)` on the tokens produced by layer CSV splitting:
succeeds exactly on non-empty all-digit tokens (the only tokens the encoder
produces), raising (`none`) otherwise. -/
def parseNat (s : List Char) : Option Nat :=
  if s ≠ [] ∧ s.all Char.isDigit then some (parseVal s) else none

/-- Model of Python `sep.join(strings)`. -/
def joinWith (sep : List Char) : List (List Char) → List Char
  | [] => []
  | [x] => x
  | x :: y :: xs => x ++ sep ++ joinWith sep (y :: xs)

/-- Single pass behind the model of Python `str.split()`: `tok` holds the
characters of the current (reversed) token. -/
def pySplitWsAux : List Char → List Char → List (List Char)
  | [], tok => if tok.isEmpty then [] else [tok.reverse]
  | c :: rest, tok =>
    if c.isWhitespace then
      if tok.isEmpty then pySplitWsAux rest []
      else tok.reverse :: pySplitWsAux rest []
    else pySplitWsAux rest (c :: tok)

/-- Model of Python `str.split()` (no argument): split on runs of whitespace,
discarding empty pieces. -/
def pySplitWs (s : List Char) : List (List Char) := pySplitWsAux s []

/-- Model of Python `str.split(sep)` for a one-character separator:
keeps empty pieces. -/
def pySplitOn (sep : Char) : List Char → List (List Char)
  | [] => [[]]
  | c :: rest =>
    if c = sep then [] :: pySplitOn sep rest
    else (pySplitOn sep rest).modifyHead (c :: ·)

/-- Errors raised by the source (`RuntimeError`, `KeyError`, `ValueError`,
`IndexError`, `struct.error`, `int()` failures), one constructor per raise
site, carrying exactly the values the source formats into the message. -/
inductive CrushError where
  /-- `'Unsupported compression {0} on layer {1}'` in `Map.get_data`. -/
  | unsupportedCompression (compression layerId : String)
  /-- `'Unable to parse layer data in {0} format'` in `Map.get_data`:
  carries only the encoding tag. -/
  | unableToParse (encoding : String)
  /-- `'Unsupported compression {0} on layer {1}'` in `Map.set_data`. -/
  | unsupportedCompressionWrite (compression layerId : String)
  /-- `'Unable to write layer {0} data in {1} format'` in `Map.set_data`. -/
  | unableToWrite (layerId encoding : String)
  /-- `'Tile width must match tile height, got {0} x {1}'` in `lookup_size`. -/
  | nonSquareTile (w h : Nat)
  /-- `'Only single tileset maps are currently supported, found {0}.'`. -/
  | multipleTilesets (n : Nat)
  /-- `ValueError` from `self.root.remove(None)` in `Tileset.remove_terrains`
  when no `terraintypes` element exists. -/
  | valueError
  /-- `KeyError` from `mapping[...]` in `Map.set_data`. -/
  | keyError (v : Nat)
  /-- `KeyError` from `some_data[layer_id]` in `Map.set_data`. -/
  | keyErrorLayer (layerId : String)
  /-- `ValueError` from `int(...)` on a malformed CSV token. -/
  | malformedLayerData
  /-- `IndexError` from `layer[0]` on an empty grid in `Map.encode_base64*`. -/
  | indexError
  /-- `struct.error`: a value outside `0 ≤ v < 2^32` packed as `'<I'`, or a
  byte payload whose length is not a multiple of 4 unpacked as `'<I'`. -/
  | structError
  /-- `AttributeError` from `self.root.find('tileset')` returning `None` in
  `Map.set_tileset_source`. -/
  | attributeError
  /-- `IndexError` from `tilesets[0]` in `Map.get_tileset_filename`. -/
  | indexErrorTileset
deriving DecidableEq, Repr

/-- `mapM` over `Option`, written out (list comprehension with `int(...)`). -/
def mapOption (f : α → Option β) : List α → Option (List β)
  | [] => some []
  | a :: as =>
    match f a, mapOption f as with
    | some b, some bs => some (b :: bs)
    | _, _ => none

/-- Sequential processing of a list where each element may raise: the first
exception propagates, as in a Python `for` loop. -/
def mapExcept (f : α → Except CrushError β) : List α → Except CrushError (List β)
  | [] => .ok []
  | a :: as =>
    match f a with
    | .error e => .error e
    | .ok b =>
      match mapExcept f as with
      | .error e => .error e
      | .ok bs => .ok (b :: bs)

/-- A decoded layer grid: a list of rows of tile indices. -/
abbrev Grid : Type := List (List Nat)

/-- One row of `Map.decode_csv`:
`[int(c) for c in line.split(',') if c != '']`, where a non-numeric token
raises `ValueError`. -/
def decodeRow (line : List Char) : Except CrushError (List Nat) :=
  match mapOption parseNat ((pySplitOn ',' line).filter (fun t => !t.isEmpty)) with
  | some r => .ok r
  | none => .error .malformedLayerData

/-- `Map.decode_csv`: `data.text.split()` into lines, each line split on
commas into ints, dropping empty tokens. -/
def decode_csv (text : List Char) : Except CrushError Grid :=
  mapExcept decodeRow (pySplitWs text)

/-- The comma-joined text of one row inside `Map.encode_csv`:
`','.join([str(x) for x in row])`. -/
def rowText (row : List Nat) : List Char :=
  joinWith [','] (row.map natToDigits)

/-- `Map.encode_csv`: rows rendered with `','.join`, joined with `',\n'`
(note the comma in the separator), plus a final newline. -/
def encode_csv (layer : Grid) : List Char :=
  joinWith [',', '\n'] (layer.map rowText) ++ ['\n']

/-- `struct.pack('<I'*n, *row)`: each value as 4 little-endian bytes.
The caller guards `v < 2^32` (Python raises `struct.error` otherwise). -/
def pack4 (row : List Nat) : List Nat :=
  row.flatMap (fun v => [v % 256, v / 256 % 256, v / 65536 % 256, v / 16777216 % 256])

/-- `struct.iter_unpack('<I', bytes)`: groups of 4 little-endian bytes to
values.  The caller guards `length % 4 = 0` (Python raises otherwise). -/
def unpack4 : List Nat → List Nat
  | b0 :: b1 :: b2 :: b3 :: rest =>
    (b0 + b1 * 256 + b2 * 65536 + b3 * 16777216) :: unpack4 rest
  | _ => []

/-- The standard base64 alphabet used by `base64.b64encode`. -/
def b64alphabet : List Char :=
  "ABCDEFGHIJKLMNOPQRSTUVWXYZabcdefghijklmnopqrstuvwxyz0123456789+/".toList

/-- Character for a 6-bit group. -/
def sextetChar (n : Nat) : Char := b64alphabet.getD n 'A'

/-- 6-bit group for an alphabet character. -/
def charSextet (c : Char) : Nat := b64alphabet.indexOf c

/-- `base64.b64encode`: three bytes at a time, `=`-padded. -/
def b64encode : List Nat → List Char
  | [] => []
  | [a] => [sextetChar (a / 4), sextetChar (a % 4 * 16), '=', '=']
  | [a, b] => [sextetChar (a / 4), sextetChar (a % 4 * 16 + b / 16),
      sextetChar (b % 16 * 4), '=']
  | a :: b :: c :: rest =>
    sextetChar (a / 4) :: sextetChar (a % 4 * 16 + b / 16) ::
      sextetChar (b % 16 * 4 + c / 64) :: sextetChar (c % 64) :: b64encode rest

/-- `base64.b64decode` on well-formed input (length a multiple of 4, padding
only at the end).  On other inputs Python raises `binascii.Error`; those
inputs never arise in the statements below, and this model returns `[]` for
the offending tail. -/
def b64decode : List Char → List Nat
  | c1 :: c2 :: c3 :: c4 :: rest =>
    if c4 = '=' then
      if c3 = '=' then [charSextet c1 * 4 + charSextet c2 / 16]
      else [charSextet c1 * 4 + charSextet c2 / 16,
        charSextet c2 % 16 * 16 + charSextet c3 / 4]
    else
      (charSextet c1 * 4 + charSextet c2 / 16) ::
        (charSextet c2 % 16 * 16 + charSextet c3 / 4) ::
        (charSextet c3 % 4 * 64 + charSextet c4) :: b64decode rest
  | _ => []

/-- An external compression library (`zlib`, `gzip` or `zstandard`):
`comp` models its `compress`, `decomp` its `decompress`.  The source calls
these as black boxes; the inverse law `decomp (comp bs) = bs` and
byte-validity of `comp`'s output are library facts taken as hypotheses by the
theorems that need them. -/
structure Codec where
  comp : List Nat → List Nat
  decomp : List Nat → List Nat

/-- The identity codec: a concrete codec satisfying the library facts,
used to instantiate the abstract parameter in closed statements. -/
def idCodec : Codec := ⟨id, id⟩

/-- The three compression libraries imported by the source. -/
structure Codecs where
  zlib : Codec
  gzip : Codec
  zstd : Codec

def idCodecs : Codecs := ⟨idCodec, idCodec, idCodec⟩

/-- `Map.decode_base64`: base64-decode, unpack `<I`, one big row. -/
def decode_base64 (text : List Char) : Except CrushError Grid :=
  let bytes := b64decode text
  if bytes.length % 4 = 0 then .ok [unpack4 bytes] else .error .structError

/-- `Map.decode_base64zlib`: base64-decode, `zlib.decompress`, unpack `<I`. -/
def decode_base64zlib (C : Codec) (text : List Char) : Except CrushError Grid :=
  let bytes := C.decomp (b64decode text)
  if bytes.length % 4 = 0 then .ok [unpack4 bytes] else .error .structError

/-- `Map.decode_base64gzip`: base64-decode, `gzip.decompress`, unpack `<I`. -/
def decode_base64gzip (C : Codec) (text : List Char) : Except CrushError Grid :=
  let bytes := C.decomp (b64decode text)
  if bytes.length % 4 = 0 then .ok [unpack4 bytes] else .error .structError

/-- `Map.decode_base64zstd`: base64-decode, `zstandard.decompress`, unpack. -/
def decode_base64zstd (C : Codec) (text : List Char) : Except CrushError Grid :=
  let bytes := C.decomp (b64decode text)
  if bytes.length % 4 = 0 then .ok [unpack4 bytes] else .error .structError

/-- `Map.encode_base64`: packs only `layer[0]` (`IndexError` on an empty
grid, `struct.error` on a value outside `0 ≤ v < 2^32`), then base64. -/
def encode_base64 (layer : Grid) : Except CrushError (List Char) :=
  match layer with
  | [] => .error .indexError
  | r :: _ =>
    if r.all (· < 4294967296) then .ok (b64encode (pack4 r)) else .error .structError

/-- `Map.encode_base64zlib`: pack `layer[0]`, `zlib.compress`, base64. -/
def encode_base64zlib (C : Codec) (layer : Grid) : Except CrushError (List Char) :=
  match layer with
  | [] => .error .indexError
  | r :: _ =>
    if r.all (· < 4294967296) then .ok (b64encode (C.comp (pack4 r)))
    else .error .structError

/-- `Map.encode_base64gzip`: pack `layer[0]`, `gzip.compress`, base64. -/
def encode_base64gzip (C : Codec) (layer : Grid) : Except CrushError (List Char) :=
  match layer with
  | [] => .error .indexError
  | r :: _ =>
    if r.all (· < 4294967296) then .ok (b64encode (C.comp (pack4 r)))
    else .error .structError

/-- `Map.encode_base64zstd`: pack `layer[0]`, `zstandard.compress`, base64. -/
def encode_base64zstd (C : Codec) (layer : Grid) : Except CrushError (List Char) :=
  match layer with
  | [] => .error .indexError
  | r :: _ =>
    if r.all (· < 4294967296) then .ok (b64encode (C.comp (pack4 r)))
    else .error .structError

/-- The five supported layer encodings (`encoding`/`compression` tag pairs
recognized by `Map.get_data`/`Map.set_data`). -/
inductive LayerEnc where
  | csv
  | b64plain
  | b64zlib
  | b64gzip
  | b64zstd
deriving DecidableEq, Repr

/-- Decoder selected by `Map.get_data` for each supported encoding. -/
def decodeEnc (C : Codec) : LayerEnc → List Char → Except CrushError Grid
  | .csv => decode_csv
  | .b64plain => decode_base64
  | .b64zlib => decode_base64zlib C
  | .b64gzip => decode_base64gzip C
  | .b64zstd => decode_base64zstd C

/-- Encoder selected by `Map.set_data` for each supported encoding. -/
def encodeEnc (C : Codec) : LayerEnc → Grid → Except CrushError (List Char)
  | .csv => fun g => .ok (encode_csv g)
  | .b64plain => encode_base64
  | .b64zlib => encode_base64zlib C
  | .b64gzip => encode_base64gzip C
  | .b64zstd => encode_base64zstd C

/-- One `<layer>` element of the map document: attributes `id`, `name`,
`width`, `height`, and its `<data>` child's `encoding`/`compression`
attributes and text.  `width`/`height` are read by `Map.get_data` into
locals that are never used. -/
structure Layer where
  id : String
  name : String
  width : Nat
  height : Nat
  encoding : String
  compression : Option String
  text : List Char
deriving DecidableEq, Repr

/-- The parsed map document (`Map.__init__`): its `<tileset>` elements'
`source` attributes, in document order, and its `<layer>` elements. -/
structure MapDoc where
  tilesets : List String
  layers : List Layer
deriving DecidableEq, Repr

/-- The dispatch inside `Map.get_data`'s loop body for one layer. -/
def decodeLayer (Z : Codecs) (l : Layer) : Except CrushError Grid :=
  if l.encoding = "csv" then decode_csv l.text
  else if l.encoding = "base64" then
    let c := l.compression.getD "none"
    if c = "none" then decode_base64 l.text
    else if c = "zlib" then decode_base64zlib Z.zlib l.text
    else if c = "gzip" then decode_base64gzip Z.gzip l.text
    else if c = "zstd" then decode_base64zstd Z.zstd l.text
    else .error (.unsupportedCompression c l.id)
  else .error (.unableToParse l.encoding)

/-- `Map.get_data`: decode every layer in document order into a
layer-id-keyed association (Python dict preserves insertion order). -/
def get_data (Z : Codecs) (m : MapDoc) : Except CrushError (List (String × Grid)) :=
  mapExcept (fun l => (decodeLayer Z l).map (fun g => (l.id, g))) m.layers

/-- The accumulation loop of `Map.discover_used`:
`if column not in used_tiles: used_tiles.append(column)`. -/
def collectUsed (acc : List Nat) : List Nat → List Nat
  | [] => acc
  | v :: rest => if v ∈ acc then collectUsed acc rest else collectUsed (acc ++ [v]) rest

/-- `Map.discover_used`: every cell of every decoded grid, first occurrences
kept, then `used_tiles.sort()`.  Note: the source has no special case for the
reserved empty index 0. -/
def discover_used (Z : Codecs) (m : MapDoc) : Except CrushError (List Nat) :=
  (get_data Z m).map (fun data =>
    (collectUsed [] ((data.map (fun kv => kv.2.flatten)).flatten)).insertionSort (· ≤ ·))

/-- The mapping-building loop in `Map.crush` (`mapping[item] = idx`,
`idx` starting at 1), as an association list; `used` is sorted and
duplicate-free when produced by `discover_used`, so the association list
agrees with the Python dict. -/
def buildMappingAux : List Nat → Nat → List (Nat × Nat)
  | [], _ => []
  | t :: rest, idx => (t, idx) :: buildMappingAux rest (idx + 1)

def buildMapping (used : List Nat) : List (Nat × Nat) := buildMappingAux used 1

/-- The cell-rewriting loop of `Map.set_data`:
`orig_data[y][x] = mapping[orig_data[y][x]]`; a value missing from the
mapping raises `KeyError`.  There is no special case for 0. -/
def applyMappingGrid (mapping : List (Nat × Nat)) (g : Grid) : Except CrushError Grid :=
  mapExcept (fun row => mapExcept (fun v =>
    match mapping.lookup v with
    | some n => .ok n
    | none => .error (.keyError v)) row) g

/-- The re-encoding dispatch inside `Map.set_data`'s loop body. -/
def encodeLayerData (Z : Codecs) (l : Layer) (g : Grid) : Except CrushError (List Char) :=
  if l.encoding = "csv" then .ok (encode_csv g)
  else if l.encoding = "base64" then
    let c := l.compression.getD "none"
    if c = "none" then encode_base64 g
    else if c = "zlib" then encode_base64zlib Z.zlib g
    else if c = "gzip" then encode_base64gzip Z.gzip g
    else if c = "zstd" then encode_base64zstd Z.zstd g
    else .error (.unsupportedCompressionWrite c l.id)
  else .error (.unableToWrite l.id l.encoding)

/-- `Map.set_data`: re-decode all layers (`some_data = self.get_data()`),
then for each layer remap every cell and re-encode in the layer's own
encoding, storing the new text. -/
def set_data (Z : Codecs) (mapping : List (Nat × Nat)) (m : MapDoc) :
    Except CrushError MapDoc :=
  match get_data Z m with
  | .error e => .error e
  | .ok some_data =>
    (mapExcept (fun l =>
      match some_data.lookup l.id with
      | none => .error (.keyErrorLayer l.id)
      | some orig =>
        match applyMappingGrid mapping orig with
        | .error e => .error e
        | .ok remapped =>
          (encodeLayerData Z l remapped).map (fun t => { l with text := t }))
      m.layers).map (fun ls => { m with layers := ls })

/-- `Map.set_tileset_source`: `self.root.find('tileset').attrib['source'] = s`;
`find` returning `None` raises `AttributeError`. -/
def set_tileset_source (source : String) (m : MapDoc) : Except CrushError MapDoc :=
  match m.tilesets with
  | [] => .error .attributeError
  | _ :: rest => .ok { m with tilesets := source :: rest }

/-- `Map.get_tileset_filename`: more than one `<tileset>` raises, none raises
`IndexError` at `tilesets[0]`. -/
def get_tileset_filename (m : MapDoc) : Except CrushError String :=
  if m.tilesets.length > 1 then .error (.multipleTilesets m.tilesets.length)
  else
    match m.tilesets with
    | [] => .error .indexErrorTileset
    | t :: _ => .ok t

/-- `Map.crush`: point the map at the new tileset, build the old→new index
mapping from `used_tiles` in order starting at 1, and rewrite all layer
data. -/
def mapCrush (Z : Codecs) (used_tiles : List Nat) (output_tileset_filename : String)
    (m : MapDoc) : Except CrushError MapDoc :=
  match set_tileset_source output_tileset_filename m with
  | .error e => .error e
  | .ok m1 => set_data Z (buildMapping used_tiles) m1

/-- One `<tile>` element of the tileset document: its `id` attribute and the
two attributes `Tileset.remove_terrains` strips. -/
structure TsxTile where
  id : Nat
  terrain : Option String
  probability : Option String
deriving DecidableEq, Repr

/-- The parsed tileset document (`Tileset.__init__` and the attributes the
source reads/writes): `tilewidth`/`tileheight`, the optional `columns` and
`tilecount` attributes, the `<image>` child's `source`/`width`/`height`,
whether a `<terraintypes>` element is present, the `<tile>` children, and the
root `name` attribute. -/
structure TilesetDoc where
  width : Nat
  height : Nat
  columnsAttr : Option Nat
  tilecountAttr : Option Nat
  imageSource : String
  imageWidth : Nat
  imageHeight : Nat
  terraintypes : Option Unit
  tiles : List TsxTile
  name : String
deriving DecidableEq, Repr

/-- `self.columns` computed in `Tileset.__init__`: the `columns` attribute,
or `image width // tile width`. -/
def columnsVal (ts : TilesetDoc) : Nat :=
  ts.columnsAttr.getD (ts.imageWidth / ts.width)

/-- `Tileset.count_tiles`: the `tilecount` attribute, or
`columns * image height // tile height`. -/
def count_tiles (ts : TilesetDoc) : Nat :=
  match ts.tilecountAttr with
  | some n => n
  | none => columnsVal ts * ts.imageHeight / ts.height

/-- `Tileset.find_tile`: 1-based index to pixel offsets.  `index - 1`, `%`
and `//` are Python int operations (floor semantics), so the model uses
`Int.fmod`/`Int.fdiv`; for `index = 0` (reserved empty index) the offsets go
negative exactly as in Python. -/
def find_tile (index columns width height : Int) : Int × Int :=
  ((index - 1).fmod columns * width, (index - 1).fdiv columns * height)

/-- The placement loop of `Tileset.create_output_texture`: for each used
tile, the source cell corner from `find_tile` paired with the destination
corner `(dx, dy)`; `dx` advances by one tile and wraps when the next tile
would overflow `new_image_size`. -/
def placementsAux (columns width height size : Int) :
    List Int → Int × Int → List ((Int × Int) × (Int × Int))
  | [], _ => []
  | item :: rest, (dx, dy) =>
    (find_tile item columns width height, (dx, dy)) ::
      (if dx + width + width > size then placementsAux columns width height size rest (0, dy + height)
       else placementsAux columns width height size rest (dx + width, dy))

/-- `Tileset.create_output_texture`, abstracted to the list of pixel-region
copies it performs: `(source corner, destination corner)` for each used tile
in order, starting at destination `(0, 0)`. -/
def create_output_texture (ts : TilesetDoc) (used_tiles : List Int) (new_image_size : Nat) :
    List ((Int × Int) × (Int × Int)) :=
  placementsAux (columnsVal ts) ts.width ts.height new_image_size used_tiles (0, 0)

/-- `os.path.splitext(filename)[0]`: the filename up to the last dot. -/
def stem (s : String) : String :=
  match (s.toList.reverse).dropWhile (· ≠ '.') with
  | [] => s
  | _ :: rest => String.mk rest.reverse

/-- `Tileset.remove_terrains`: `self.root.find('terraintypes')` is `None`
when the element is absent, and `self.root.remove(None)` raises
`ValueError`; otherwise the element is removed, used tiles keep their record
minus `terrain`/`probability` with `id` rewritten to
`used_tiles.index(id) + 1`, and unused tiles are dropped. -/
def remove_terrains (ts : TilesetDoc) (used_tiles : List Nat) :
    Except CrushError TilesetDoc :=
  match ts.terraintypes with
  | none => .error .valueError
  | some _ => .ok { ts with
      terraintypes := none,
      tiles := (ts.tiles.filter (fun t => t.id ∈ used_tiles)).map (fun t =>
        { id := used_tiles.indexOf t.id + 1, terrain := none, probability := none }) }

/-- `Tileset.crush`: remove terrains, then update `columns`
(`new_image_size // tile_width`), the image source and dimensions, the tile
count and the name (stem of the output tileset filename). -/
def tilesetCrush (ts : TilesetDoc) (used_tiles : List Nat) (new_image_size : Nat)
    (output_texture_filename output_tileset_filename : String) :
    Except CrushError TilesetDoc :=
  match remove_terrains ts used_tiles with
  | .error e => .error e
  | .ok ts1 => .ok { ts1 with
      columnsAttr := some (new_image_size / ts.width),
      imageSource := output_texture_filename,
      imageWidth := new_image_size,
      imageHeight := new_image_size,
      tilecountAttr := some used_tiles.length,
      name := stem output_tileset_filename }

/-- Search for the least `k` (from `k` up, with the given fuel) whose square
reaches `n`. -/
def ceilSqrtAux (n : Nat) : Nat → Nat → Nat
  | k, 0 => k
  | k, fuel + 1 => if n ≤ k * k then k else ceilSqrtAux n (k + 1) fuel

/-- `math.ceil(math.sqrt(n))` as the source computes it (exact for the tile
counts at hand): the least `k` with `n ≤ k * k`. -/
def ceilSqrt (n : Nat) : Nat := ceilSqrtAux n 0 n

/-- The doubling loop of `lookup_size` (`size = 1; while size < texture_size:
size = size << 1`), fuelled so that it is structural.  Starting from
`size = 1` the loop finishes within `texture_size` iterations (the size at
least doubles each round), so `grow` below runs it with that much fuel;
`growF_fuel_stable` shows the fuel does not matter. -/
def growF : Nat → Nat → Nat → Nat
  | 0, _, size => size
  | fuel + 1, texture_size, size =>
    if size < texture_size then growF fuel texture_size (size * 2) else size

/-- The `size` computed by `lookup_size`'s doubling loop from `size = 1`. -/
def grow (texture_size : Nat) : Nat := growF texture_size texture_size 1

/-- `lookup_size`: fails unless tiles are square, else the smallest
power-of-two size reached by doubling from 1 up to
`ceil(sqrt(num_tiles)) * tile_width`. -/
def lookup_size (num_tiles tile_width tile_height : Nat) : Except CrushError Nat :=
  if tile_width ≠ tile_height then .error (.nonSquareTile tile_width tile_height)
  else .ok (grow (ceilSqrt num_tiles * tile_width))

/-- The in-memory core of `do_crushing` (file I/O, prints and the optional
`pngcrush` step are external): resolve the single tileset reference, discover
used tiles, compute the atlas size, build the output-texture copy list,
crush the tileset, crush the map. -/
def do_crushing_pure (Z : Codecs) (m : MapDoc) (ts : TilesetDoc)
    (output_tileset_filename output_texture_filename : String) :
    Except CrushError (MapDoc × TilesetDoc × List ((Int × Int) × (Int × Int)) × Nat) :=
  match get_tileset_filename m with
  | .error e => .error e
  | .ok _ =>
    match discover_used Z m with
    | .error e => .error e
    | .ok used_tiles =>
      match lookup_size used_tiles.length ts.width ts.height with
      | .error e => .error e
      | .ok new_image_size =>
        let copies := create_output_texture ts (used_tiles.map Int.ofNat) new_image_size
        match tilesetCrush ts used_tiles new_image_size
            output_texture_filename output_tileset_filename with
        | .error e => .error e
        | .ok ts2 =>
          match mapCrush Z used_tiles output_tileset_filename m with
          | .error e => .error e
          | .ok m2 => .ok (m2, ts2, copies, new_image_size)

/-- Scenario A's map: one CSV layer whose decoded grid is
`[[0,3,0],[5,3,0]]` (0 = reserved empty index). -/
def mapA : MapDoc :=
  { tilesets := ["tiles.tsx"],
    layers := [{ id := "1", name := "ground", width := 3, height := 2,
                 encoding := "csv", compression := none,
                 text := "0,3,0\n5,3,0\n".toList }] }

/-- Scenario B's tileset: `tilecount=100`, tile size 16×16, `columns=10`
(image 160×160), with a `<terraintypes>` element and no `<tile>` records. -/
def tsB : TilesetDoc :=
  { width := 16, height := 16, columnsAttr := some 10,
    tilecountAttr := some 100, imageSource := "tiles.png",
    imageWidth := 160, imageHeight := 160,
    terraintypes := some (), tiles := [], name := "tiles" }

/-- A map whose single CSV layer grid is all zeros (`[[0]]`). -/
def mapZero : MapDoc :=
  { tilesets := ["tiles.tsx"],
    layers := [{ id := "1", name := "ground", width := 1, height := 1,
                 encoding := "csv", compression := none, text := "0\n".toList }] }

/-- A map with a single layer, for exercising the per-layer decode dispatch. -/
def oneLayerMap (lid lname : String) (lw lh : Nat) (enc : String)
    (comp : Option String) (txt : List Char) : MapDoc :=
  { tilesets := ["tiles.tsx"],
    layers := [{ id := lid, name := lname, width := lw, height := lh,
                 encoding := enc, compression := comp, text := txt }] }

/-- Scenario B's tileset without a `<terraintypes>` element. -/
def tsNoTerrain : TilesetDoc := { tsB with terraintypes := none }

/-- The decode(encode) round-trip domain: CSV tolerates any grid whose rows
are all non-empty; the binary encodings only ever serialize `layer[0]`, so
they round-trip exactly the single-row grids of 32-bit values (the shape
their own decoder produces). -/
def goodInput : LayerEnc → Grid → Prop
  | .csv => fun G => ∀ r ∈ G, r ≠ []
  | _ => fun G => ∃ r, G = [r] ∧ ∀ v ∈ r, v < 4294967296


deriving instance DecidableEq for Except

theorem digitChar_isDigit {n : Nat} (h : n < 10) : (digitChar n).isDigit = true := by
  interval_cases n <;> decide

theorem charToVal_digitChar {n : Nat} (h : n < 10) : charToVal (digitChar n) = n := by
  interval_cases n <;> decide

theorem natToDigits_ne_nil (n : Nat) : natToDigits n ≠ [] := by
  rw [natToDigits_eq]
  by_cases h : n < 10
  · simp [h]
  · simp only [if_neg h]
    intro hc
    exact absurd (List.append_eq_nil.mp hc).2 (by simp)

theorem natToDigits_all_isDigit (n : Nat) : ∀ c ∈ natToDigits n, c.isDigit = true := by
  induction n using Nat.strong_induction_on with
  | _ n ih =>
    rw [natToDigits_eq]
    by_cases h : n < 10
    · simp only [if_pos h, List.mem_singleton]
      rintro c rfl
      exact digitChar_isDigit h
    · simp only [if_neg h, List.mem_append, List.mem_singleton]
      rintro c (hc | rfl)
      · exact ih (n / 10) (Nat.div_lt_self (by omega) (by omega)) c hc
      · exact digitChar_isDigit (Nat.mod_lt n (by omega))

theorem parseVal_append (xs : List Char) (c : Char) :
    parseVal (xs ++ [c]) = parseVal xs * 10 + charToVal c := by
  simp [parseVal, List.foldl_append]

theorem parseVal_natToDigits (n : Nat) : parseVal (natToDigits n) = n := by
  induction n using Nat.strong_induction_on with
  | _ n ih =>
    rw [natToDigits_eq]
    by_cases h : n < 10
    · simp only [if_pos h]
      show parseVal ([] ++ [digitChar n]) = n
      rw [parseVal_append, charToVal_digitChar h]
      simp [parseVal]
    · simp only [if_neg h]
      rw [parseVal_append, ih (n / 10) (Nat.div_lt_self (by omega) (by omega)),
        charToVal_digitChar (Nat.mod_lt n (by omega))]
      omega

theorem parseNat_natToDigits (n : Nat) : parseNat (natToDigits n) = some n := by
  rw [parseNat, if_pos, parseVal_natToDigits]
  exact ⟨natToDigits_ne_nil n, List.all_eq_true.mpr (natToDigits_all_isDigit n)⟩

theorem isDigit_not_ws {c : Char} (h : c.isDigit = true) : c.isWhitespace = false := by
  have h1 : c ≠ ' ' := by rintro rfl; exact absurd h (by decide)
  have h2 : c ≠ '\t' := by rintro rfl; exact absurd h (by decide)
  have h3 : c ≠ '\r' := by rintro rfl; exact absurd h (by decide)
  have h4 : c ≠ '\n' := by rintro rfl; exact absurd h (by decide)
  simp [Char.isWhitespace, h1, h2, h3, h4]

theorem isDigit_ne_comma {c : Char} (h : c.isDigit = true) : c ≠ ',' := by
  rintro rfl
  exact absurd h (by decide)

theorem mem_joinWith {c : Char} {sep : List Char} :
    ∀ {ls : List (List Char)}, c ∈ joinWith sep ls → c ∈ sep ∨ ∃ l ∈ ls, c ∈ l := by
  intro ls
  induction ls with
  | nil => intro h; exact absurd h (by simp [joinWith])
  | cons x xs ih =>
    match xs with
    | [] =>
      intro h
      exact Or.inr ⟨x, by simp, h⟩
    | y :: ys =>
      intro h
      rw [joinWith] at h
      rcases List.mem_append.mp h with h1 | h2
      · rcases List.mem_append.mp h1 with hx | hs
        · exact Or.inr ⟨x, by simp, hx⟩
        · exact Or.inl hs
      · rcases ih h2 with hs | ⟨l, hl, hc⟩
        · exact Or.inl hs
        · exact Or.inr ⟨l, by simp [hl], hc⟩

theorem joinWith_cons_ne_nil {sep : List Char} {x : List Char} (hx : x ≠ [])
    (xs : List (List Char)) : joinWith sep (x :: xs) ≠ [] := by
  match xs with
  | [] => simpa [joinWith]
  | y :: ys =>
    rw [joinWith]
    simp [hx]

theorem rowText_chars {row : List Nat} {c : Char} (hc : c ∈ rowText row) :
    c = ',' ∨ c.isDigit = true := by
  rcases mem_joinWith hc with hs | ⟨l, hl, hcl⟩
  · exact Or.inl (by simpa using hs)
  · rcases List.mem_map.mp hl with ⟨v, _, rfl⟩
    exact Or.inr (natToDigits_all_isDigit v c hcl)

theorem rowText_not_ws {row : List Nat} {c : Char} (hc : c ∈ rowText row) :
    c.isWhitespace = false := by
  rcases rowText_chars hc with rfl | hd
  · decide
  · exact isDigit_not_ws hd

theorem rowText_ne_nil {row : List Nat} (h : row ≠ []) : rowText row ≠ [] := by
  match row with
  | v :: rest => exact joinWith_cons_ne_nil (natToDigits_ne_nil v) _

theorem pySplitWsAux_token (u : List Char) : ∀ (tok t : List Char),
    (∀ c ∈ u, c.isWhitespace = false) → (tok ≠ [] ∨ u ≠ []) →
    pySplitWsAux (u ++ '\n' :: t) tok = (tok.reverse ++ u) :: pySplitWsAux t [] := by
  induction u with
  | nil =>
    intro tok t _ hne
    have htok : tok ≠ [] := hne.resolve_right (by simp)
    simp only [List.nil_append, pySplitWsAux]
    rw [if_pos (by decide), if_neg (by simpa using htok)]
    simp
  | cons c u ih =>
    intro tok t hws hne
    have hc : c.isWhitespace = false := hws c (by simp)
    simp only [List.cons_append, pySplitWsAux, List.append_eq]
    rw [if_neg (by simp [hc])]
    rw [ih (c :: tok) t (fun d hd => hws d (by simp [hd])) (Or.inl (by simp))]
    simp

theorem pySplitWs_token (u t : List Char) (hws : ∀ c ∈ u, c.isWhitespace = false)
    (hu : u ≠ []) : pySplitWs (u ++ '\n' :: t) = u :: pySplitWs t := by
  rw [pySplitWs, pySplitWsAux_token u [] t hws (Or.inr hu)]
  rfl

theorem pySplitOn_free {sep : Char} : ∀ {a : List Char}, (∀ c ∈ a, c ≠ sep) →
    pySplitOn sep a = [a] := by
  intro a
  induction a with
  | nil => intro _; rfl
  | cons c rest ih =>
    intro h
    rw [pySplitOn, if_neg (h c (by simp)), ih (fun d hd => h d (by simp [hd]))]
    rfl

theorem pySplitOn_append {sep : Char} {b : List Char} : ∀ {a : List Char},
    (∀ c ∈ a, c ≠ sep) → pySplitOn sep (a ++ sep :: b) = a :: pySplitOn sep b := by
  intro a
  induction a with
  | nil => intro _; simp [pySplitOn]
  | cons c rest ih =>
    intro h
    simp only [List.cons_append, pySplitOn, List.append_eq]
    rw [if_neg (h c (by simp)), ih (fun d hd => h d (by simp [hd]))]
    rfl

theorem splitOn_joinWith {sep : Char} : ∀ {toks : List (List Char)}, toks ≠ [] →
    (∀ l ∈ toks, ∀ c ∈ l, c ≠ sep) →
    pySplitOn sep (joinWith [sep] toks ++ [sep]) = toks ++ [[]] := by
  intro toks
  induction toks with
  | nil => intro h; exact absurd rfl h
  | cons x xs ih =>
    intro _ hfree
    match xs with
    | [] =>
      rw [joinWith]
      rw [pySplitOn_append (hfree x (by simp))]
      rfl
    | y :: ys =>
      rw [joinWith]
      have : x ++ [sep] ++ joinWith [sep] (y :: ys) ++ [sep] =
          x ++ sep :: (joinWith [sep] (y :: ys) ++ [sep]) := by simp
      rw [this, pySplitOn_append (hfree x (by simp)),
        ih (by simp) (fun l hl => hfree l (by simp [hl]))]
      simp

theorem splitOn_joinWith_last {sep : Char} : ∀ {toks : List (List Char)}, toks ≠ [] →
    (∀ l ∈ toks, ∀ c ∈ l, c ≠ sep) →
    pySplitOn sep (joinWith [sep] toks) = toks := by
  intro toks
  induction toks with
  | nil => intro h; exact absurd rfl h
  | cons x xs ih =>
    intro _ hfree
    match xs with
    | [] => exact pySplitOn_free (hfree x (by simp))
    | y :: ys =>
      rw [joinWith]
      have : x ++ [sep] ++ joinWith [sep] (y :: ys) =
          x ++ sep :: joinWith [sep] (y :: ys) := by simp
      rw [this, pySplitOn_append (hfree x (by simp)),
        ih (by simp) (fun l hl => hfree l (by simp [hl]))]

theorem filter_tokens {toks : List (List Char)} (h : ∀ t ∈ toks, t ≠ []) :
    toks.filter (fun t => !t.isEmpty) = toks := by
  induction toks with
  | nil => rfl
  | cons x xs ih =>
    rw [List.filter_cons_of_pos (by simpa using h x (by simp)),
      ih (fun t ht => h t (by simp [ht]))]

theorem filter_tokens_last {toks : List (List Char)} (h : ∀ t ∈ toks, t ≠ []) :
    (toks ++ [[]]).filter (fun t => !t.isEmpty) = toks := by
  rw [List.filter_append, filter_tokens h]
  simp

theorem mapOption_parse (row : List Nat) :
    mapOption parseNat (row.map natToDigits) = some row := by
  induction row with
  | nil => rfl
  | cons v rest ih =>
    simp only [List.map_cons, mapOption, parseNat_natToDigits v, ih]

theorem rowText_toks_ne_nil (row : List Nat) :
    ∀ t ∈ row.map natToDigits, t ≠ [] := by
  intro t ht
  rcases List.mem_map.mp ht with ⟨v, _, rfl⟩
  exact natToDigits_ne_nil v

theorem rowText_toks_free (row : List Nat) :
    ∀ t ∈ row.map natToDigits, ∀ c ∈ t, c ≠ ',' := by
  intro t ht c hc
  rcases List.mem_map.mp ht with ⟨v, _, rfl⟩
  exact isDigit_ne_comma (natToDigits_all_isDigit v c hc)

theorem decodeRow_rowText {row : List Nat} (h : row ≠ []) :
    decodeRow (rowText row) = .ok row := by
  unfold decodeRow rowText
  rw [splitOn_joinWith_last (by simpa) (rowText_toks_free row),
    filter_tokens (rowText_toks_ne_nil row), mapOption_parse]

theorem decodeRow_rowText_comma {row : List Nat} (h : row ≠ []) :
    decodeRow (rowText row ++ [',']) = .ok row := by
  unfold decodeRow rowText
  rw [splitOn_joinWith (by simpa) (rowText_toks_free row),
    filter_tokens_last (rowText_toks_ne_nil row), mapOption_parse]

theorem encode_csv_cons (r r2 : List Nat) (G : Grid) :
    encode_csv (r :: r2 :: G) = (rowText r ++ [',']) ++ '\n' :: encode_csv (r2 :: G) := by
  simp [encode_csv, joinWith, List.append_assoc]

theorem rowText_comma_not_ws {row : List Nat} :
    ∀ c ∈ rowText row ++ [','], c.isWhitespace = false := by
  intro c hc
  rcases List.mem_append.mp hc with h1 | h2
  · exact rowText_not_ws h1
  · rw [List.mem_singleton.mp h2]; decide

/-- CSV decode is a left inverse of CSV encode on grids with no empty rows. -/
theorem decode_encode_csv : ∀ G : Grid, (∀ r ∈ G, r ≠ []) →
    decode_csv (encode_csv G) = .ok G := by
  intro G
  induction G with
  | nil => intro _; decide
  | cons r G' ih =>
    intro h
    have hr : r ≠ [] := h r (by simp)
    cases G' with
    | nil =>
      have he : encode_csv [r] = rowText r ++ '\n' :: [] := by
        simp [encode_csv, joinWith]
      rw [he]
      unfold decode_csv
      rw [pySplitWs_token _ _ (fun c hc => rowText_not_ws hc) (rowText_ne_nil hr)]
      simp only [mapExcept, decodeRow_rowText hr]
    | cons r2 G'' =>
      rw [encode_csv_cons]
      unfold decode_csv
      rw [pySplitWs_token _ _ rowText_comma_not_ws (by simp [rowText_ne_nil hr])]
      simp only [mapExcept, decodeRow_rowText_comma hr]
      have := ih (fun x hx => h x (by simp [hx]))
      unfold decode_csv at this
      rw [this]

theorem charSextet_sextetChar {n : Nat} (h : n < 64) : charSextet (sextetChar n) = n := by
  interval_cases n <;> decide

theorem sextetChar_ne_pad {n : Nat} (h : n < 64) : sextetChar n ≠ '=' := by
  interval_cases n <;> decide

theorem b64decode_encode : ∀ (bs : List Nat), (∀ b ∈ bs, b < 256) →
    b64decode (b64encode bs) = bs
  | [], _ => rfl
  | [a], h => by
    have ha : a < 256 := h a (by simp)
    simp only [b64encode, b64decode, if_pos]
    rw [charSextet_sextetChar (by omega), charSextet_sextetChar (by omega)]
    rw [List.cons_eq_cons]
    exact ⟨by omega, rfl⟩
  | [a, b], h => by
    have ha : a < 256 := h a (by simp)
    have hb : b < 256 := h b (by simp)
    simp only [b64encode, b64decode, if_true]
    rw [if_neg (sextetChar_ne_pad (by omega))]
    rw [charSextet_sextetChar (by omega), charSextet_sextetChar (by omega),
      charSextet_sextetChar (by omega)]
    rw [List.cons_eq_cons]
    refine ⟨by omega, ?_⟩
    rw [List.cons_eq_cons]
    exact ⟨by omega, rfl⟩
  | a :: b :: c :: rest, h => by
    have ha : a < 256 := h a (by simp)
    have hb : b < 256 := h b (by simp)
    have hc : c < 256 := h c (by simp)
    simp only [b64encode, b64decode]
    rw [if_neg (sextetChar_ne_pad (by omega))]
    rw [charSextet_sextetChar (by omega), charSextet_sextetChar (by omega),
      charSextet_sextetChar (by omega), charSextet_sextetChar (by omega)]
    rw [b64decode_encode rest (fun x hx => h x (by simp [hx]))]
    rw [List.cons_eq_cons]
    refine ⟨by omega, ?_⟩
    rw [List.cons_eq_cons]
    refine ⟨by omega, ?_⟩
    rw [List.cons_eq_cons]
    exact ⟨by omega, rfl⟩

theorem pack4_all_lt (row : List Nat) : ∀ b ∈ pack4 row, b < 256 := by
  intro b hb
  rcases List.mem_flatMap.mp hb with ⟨v, _, hv⟩
  simp only [List.mem_cons, List.mem_singleton] at hv
  rcases hv with rfl | rfl | rfl | rfl | hfalse
  · exact Nat.mod_lt _ (by omega)
  · exact Nat.mod_lt _ (by omega)
  · exact Nat.mod_lt _ (by omega)
  · exact Nat.mod_lt _ (by omega)
  · exact absurd hfalse (List.not_mem_nil b)

theorem pack4_cons (v : Nat) (rest : List Nat) :
    pack4 (v :: rest) =
      v % 256 :: v / 256 % 256 :: v / 65536 % 256 :: v / 16777216 % 256 :: pack4 rest := by
  simp [pack4, List.flatMap_cons]

theorem pack4_length (row : List Nat) : (pack4 row).length = 4 * row.length := by
  induction row with
  | nil => rfl
  | cons v rest ih =>
    rw [pack4_cons]
    simp only [List.length_cons, ih, List.length_cons]
    omega

theorem unpack4_pack4 (row : List Nat) (h : ∀ v ∈ row, v < 4294967296) :
    unpack4 (pack4 row) = row := by
  induction row with
  | nil => rfl
  | cons v rest ih =>
    have hv : v < 4294967296 := h v (by simp)
    rw [pack4_cons, unpack4, ih (fun x hx => h x (by simp [hx])), List.cons_eq_cons]
    exact ⟨by omega, rfl⟩

theorem all_lt_decide {r : List Nat} (h : ∀ v ∈ r, v < 4294967296) :
    r.all (· < 4294967296) = true :=
  List.all_eq_true.mpr (fun v hv => decide_eq_true (h v hv))

theorem decode_encode_base64 (r : List Nat) (h : ∀ v ∈ r, v < 4294967296) :
    (encode_base64 [r]).bind decode_base64 = .ok [r] := by
  simp only [encode_base64]
  rw [if_pos (all_lt_decide h)]
  show decode_base64 (b64encode (pack4 r)) = .ok [r]
  unfold decode_base64
  rw [b64decode_encode _ (pack4_all_lt r)]
  rw [if_pos (by rw [pack4_length]; omega), unpack4_pack4 r h]

theorem decomp_b64_comp (C : Codec) (hinv : ∀ bs, C.decomp (C.comp bs) = bs)
    (hbytes : ∀ bs, (∀ b ∈ bs, b < 256) → ∀ b ∈ C.comp bs, b < 256) (r : List Nat) :
    C.decomp (b64decode (b64encode (C.comp (pack4 r)))) = pack4 r := by
  rw [b64decode_encode _ (hbytes _ (pack4_all_lt r)), hinv]

theorem decode_encode_base64zlib (C : Codec) (hinv : ∀ bs, C.decomp (C.comp bs) = bs)
    (hbytes : ∀ bs, (∀ b ∈ bs, b < 256) → ∀ b ∈ C.comp bs, b < 256)
    (r : List Nat) (h : ∀ v ∈ r, v < 4294967296) :
    (encode_base64zlib C [r]).bind (decode_base64zlib C) = .ok [r] := by
  simp only [encode_base64zlib]
  rw [if_pos (all_lt_decide h)]
  show decode_base64zlib C (b64encode (C.comp (pack4 r))) = .ok [r]
  unfold decode_base64zlib
  rw [decomp_b64_comp C hinv hbytes r]
  rw [if_pos (by rw [pack4_length]; omega), unpack4_pack4 r h]

theorem decode_encode_base64gzip (C : Codec) (hinv : ∀ bs, C.decomp (C.comp bs) = bs)
    (hbytes : ∀ bs, (∀ b ∈ bs, b < 256) → ∀ b ∈ C.comp bs, b < 256)
    (r : List Nat) (h : ∀ v ∈ r, v < 4294967296) :
    (encode_base64gzip C [r]).bind (decode_base64gzip C) = .ok [r] := by
  simp only [encode_base64gzip]
  rw [if_pos (all_lt_decide h)]
  show decode_base64gzip C (b64encode (C.comp (pack4 r))) = .ok [r]
  unfold decode_base64gzip
  rw [decomp_b64_comp C hinv hbytes r]
  rw [if_pos (by rw [pack4_length]; omega), unpack4_pack4 r h]

theorem decode_encode_base64zstd (C : Codec) (hinv : ∀ bs, C.decomp (C.comp bs) = bs)
    (hbytes : ∀ bs, (∀ b ∈ bs, b < 256) → ∀ b ∈ C.comp bs, b < 256)
    (r : List Nat) (h : ∀ v ∈ r, v < 4294967296) :
    (encode_base64zstd C [r]).bind (decode_base64zstd C) = .ok [r] := by
  simp only [encode_base64zstd]
  rw [if_pos (all_lt_decide h)]
  show decode_base64zstd C (b64encode (C.comp (pack4 r))) = .ok [r]
  unfold decode_base64zstd
  rw [decomp_b64_comp C hinv hbytes r]
  rw [if_pos (by rw [pack4_length]; omega), unpack4_pack4 r h]

/-- C1, counterexample: the round-trip law fails as universally stated.  A
two-row grid through the base64 codec comes back as a single row (only
`layer[0]` is ever encoded), and a grid containing an empty row does not
survive the CSV round trip. -/
theorem crushtileset_C1_counterexample :
    (encodeEnc idCodec .b64plain [[1], [2]]).bind (decodeEnc idCodec .b64plain) ≠
        .ok [[1], [2]] ∧
      (encodeEnc idCodec .csv [[]]).bind (decodeEnc idCodec .csv) ≠ .ok [[]] := by
  constructor
  · decide
  · decide

/-- C1 (amended): decode is a left inverse of encode for every supported
encoding on its achievable grids — all grids with non-empty rows for CSV,
and single-row grids of 32-bit values for the binary encodings (plain or
behind any compression filter whose library satisfies
`decompress ∘ compress = id` and produces bytes). -/
theorem crushtileset_C1_amended :
    ∀ (C : Codec), (∀ bs, C.decomp (C.comp bs) = bs) →
    (∀ bs, (∀ b ∈ bs, b < 256) → ∀ b ∈ C.comp bs, b < 256) →
    ∀ (e : LayerEnc) (G : Grid), goodInput e G →
    (encodeEnc C e G).bind (decodeEnc C e) = .ok G := by
  intro C hinv hbytes e G hg
  cases e with
  | csv => exact decode_encode_csv G hg
  | b64plain =>
    obtain ⟨r, rfl, hr⟩ := hg
    exact decode_encode_base64 r hr
  | b64zlib =>
    obtain ⟨r, rfl, hr⟩ := hg
    exact decode_encode_base64zlib C hinv hbytes r hr
  | b64gzip =>
    obtain ⟨r, rfl, hr⟩ := hg
    exact decode_encode_base64gzip C hinv hbytes r hr
  | b64zstd =>
    obtain ⟨r, rfl, hr⟩ := hg
    exact decode_encode_base64zstd C hinv hbytes r hr

/-- C1, witness: the amended round trip at a concrete compressed single-row
grid, with every hypothesis discharged at the identity codec. -/
theorem crushtileset_C1_witness :
    (∀ bs, idCodec.decomp (idCodec.comp bs) = bs) ∧
    (∀ bs, (∀ b ∈ bs, b < 256) → ∀ b ∈ idCodec.comp bs, b < 256) ∧
    goodInput .b64zlib [[1, 2]] ∧
    (encodeEnc idCodec .b64zlib [[1, 2]]).bind (decodeEnc idCodec .b64zlib) = .ok [[1, 2]] :=
  ⟨fun _ => rfl, fun _ h => h, ⟨[1, 2], rfl, by decide⟩,
    crushtileset_C1_amended idCodec (fun _ => rfl) (fun _ h => h) .b64zlib [[1, 2]]
      ⟨[1, 2], rfl, by decide⟩⟩

/-- C8, counterexample: `[[1,2,3],[4,5,6]]` does not encode to
`"1,2,3\n4,5,6\n"` — the source joins rows with `',\n'`, leaving a trailing
comma on every row but the last. -/
theorem crushtileset_C8_counterexample :
    encode_csv [[1, 2, 3], [4, 5, 6]] ≠ "1,2,3\n4,5,6\n".toList := by decide

/-- C8 (amended): CSV encoding joins each row's integers with commas and
joins rows with the two-character separator `',\n'` — so every row except
the last carries a trailing comma — then appends a final newline; in
particular `[[1,2,3],[4,5,6]]` encodes to `"1,2,3,\n4,5,6\n"`. -/
theorem crushtileset_C8_amended :
    (∀ (r : List Nat) (rest : Grid), rest ≠ [] →
      encode_csv (r :: rest) = rowText r ++ [','] ++ '\n' :: encode_csv rest) ∧
    (∀ r : List Nat, encode_csv [r] = rowText r ++ ['\n']) ∧
    encode_csv [[1, 2, 3], [4, 5, 6]] = "1,2,3,\n4,5,6\n".toList := by
  refine ⟨?_, ?_, by decide⟩
  · intro r rest hne
    match rest with
    | r2 :: G => simpa using encode_csv_cons r r2 G
  · intro r
    simp [encode_csv, joinWith]

/-- C8, witness: the amended row-peeling law at a concrete two-row grid. -/
theorem crushtileset_C8_witness :
    ([[4, 5, 6]] : Grid) ≠ [] ∧
    encode_csv [[1, 2, 3], [4, 5, 6]] =
      rowText [1, 2, 3] ++ [','] ++ '\n' :: encode_csv [[4, 5, 6]] :=
  ⟨by decide, crushtileset_C8_amended.1 [1, 2, 3] [[4, 5, 6]] (by decide)⟩

theorem buildMappingAux_fst : ∀ (U : List Nat) (i : Nat),
    (buildMappingAux U i).map Prod.fst = U := by
  intro U
  induction U with
  | nil => intro i; rfl
  | cons t rest ih => intro i; simp [buildMappingAux, ih]

theorem buildMappingAux_snd : ∀ (U : List Nat) (i : Nat),
    (buildMappingAux U i).map Prod.snd = List.range' i U.length := by
  intro U
  induction U with
  | nil => intro i; rfl
  | cons t rest ih =>
    intro i
    simp only [buildMappingAux, List.map_cons, ih, List.length_cons, List.range'_succ]

theorem buildMappingAux_snd_ge : ∀ (U : List Nat) (i : Nat),
    ∀ p ∈ buildMappingAux U i, i ≤ p.2 := by
  intro U
  induction U with
  | nil => intro i p hp; exact absurd hp (List.not_mem_nil p)
  | cons t rest ih =>
    intro i p hp
    rcases List.mem_cons.mp hp with rfl | htail
    · exact Nat.le_refl i
    · exact Nat.le_of_succ_le (ih (i + 1) p htail)

theorem buildMappingAux_inj : ∀ (U : List Nat) (i : Nat),
    ∀ p ∈ buildMappingAux U i, ∀ q ∈ buildMappingAux U i, p.2 = q.2 → p.1 = q.1 := by
  intro U
  induction U with
  | nil => intro i p hp; exact absurd hp (List.not_mem_nil p)
  | cons t rest ih =>
    intro i p hp q hq heq
    rcases List.mem_cons.mp hp with rfl | hptail
    · rcases List.mem_cons.mp hq with rfl | hqtail
      · rfl
      · have := buildMappingAux_snd_ge rest (i + 1) q hqtail
        omega
    · rcases List.mem_cons.mp hq with rfl | hqtail
      · have := buildMappingAux_snd_ge rest (i + 1) p hptail
        omega
      · exact ih (i + 1) p hptail q hqtail heq

/-- C4: on a sorted, deduplicated, 0-free used set `U`, the mapping loop of
`Map.crush` produces exactly the pairs `(U, [1..|U|])` in order: its domain
is `U`, its values are exactly `1..|U|` assigned ascending, the assignment
is injective, and the minimum element of `U` receives index 1. -/
theorem crushtileset_C4 :
    ∀ (U : List Nat), List.Sorted (· < ·) U → 0 ∉ U →
      (buildMapping U).map Prod.fst = U ∧
      (buildMapping U).map Prod.snd = List.range' 1 U.length ∧
      (∀ p ∈ buildMapping U, ∀ q ∈ buildMapping U, p.2 = q.2 → p.1 = q.1) ∧
      (∀ m ∈ U, (∀ x ∈ U, m ≤ x) → (buildMapping U).lookup m = some 1) := by
  intro U hsorted _
  refine ⟨buildMappingAux_fst U 1, buildMappingAux_snd U 1, buildMappingAux_inj U 1, ?_⟩
  intro m hm hmin
  match U, hm with
  | u :: rest, hm =>
    have hmu : m = u := by
      rcases List.mem_cons.mp hm with rfl | htail
      · rfl
      · have hlt : u < m := (List.sorted_cons.mp hsorted).1 m htail
        have := hmin u (by simp)
        omega
    subst hmu
    simp [buildMapping, buildMappingAux, List.lookup]

/-- C4, witness: the mapping properties at the used set `[3, 5]`. -/
theorem crushtileset_C4_witness :
    List.Sorted (· < ·) [3, 5] ∧ (0 : Nat) ∉ [3, 5] ∧
      ((buildMapping [3, 5]).map Prod.fst = [3, 5] ∧
       (buildMapping [3, 5]).map Prod.snd = List.range' 1 2 ∧
       (∀ p ∈ buildMapping [3, 5], ∀ q ∈ buildMapping [3, 5], p.2 = q.2 → p.1 = q.1) ∧
       (∀ m ∈ [3, 5], (∀ x ∈ [3, 5], m ≤ x) → (buildMapping [3, 5]).lookup m = some 1)) :=
  ⟨by simp, by simp,
    crushtileset_C4 [3, 5] (by simp) (by simp)⟩

theorem growF_ge : ∀ (fuel ts size : Nat), 1 ≤ size → ts ≤ size + fuel →
    ts ≤ growF fuel ts size := by
  intro fuel
  induction fuel with
  | zero => intro ts size _ h; simpa [growF] using h
  | succ fuel ih =>
    intro ts size h1 h2
    rw [growF]
    by_cases h : size < ts
    · rw [if_pos h]
      exact ih ts (size * 2) (by omega) (by omega)
    · rw [if_neg h]; omega

theorem growF_pow : ∀ (fuel ts j : Nat), ∃ k, growF fuel ts (2 ^ j) = 2 ^ k := by
  intro fuel
  induction fuel with
  | zero => intro ts j; exact ⟨j, rfl⟩
  | succ fuel ih =>
    intro ts j
    rw [growF]
    by_cases h : 2 ^ j < ts
    · rw [if_pos h]
      have : (2 : Nat) ^ j * 2 = 2 ^ (j + 1) := by rw [pow_succ]
      rw [this]
      exact ih ts (j + 1)
    · rw [if_neg h]; exact ⟨j, rfl⟩

theorem growF_lt : ∀ (fuel ts size : Nat), 1 ≤ size → size < 2 * ts →
    growF fuel ts size < 2 * ts := by
  intro fuel
  induction fuel with
  | zero => intro ts size _ h; simpa [growF] using h
  | succ fuel ih =>
    intro ts size h1 h2
    rw [growF]
    by_cases h : size < ts
    · rw [if_pos h]
      exact ih ts (size * 2) (by omega) (by omega)
    · rw [if_neg h]; omega

theorem ceilSqrtAux_ge (n : Nat) : ∀ (fuel k : Nat), n ≤ (k + fuel) * (k + fuel) →
    n ≤ ceilSqrtAux n k fuel * ceilSqrtAux n k fuel := by
  intro fuel
  induction fuel with
  | zero => intro k h; simpa [ceilSqrtAux] using h
  | succ fuel ih =>
    intro k h
    rw [ceilSqrtAux]
    by_cases hk : n ≤ k * k
    · rw [if_pos hk]; exact hk
    · rw [if_neg hk]
      have heq : k + 1 + fuel = k + (fuel + 1) := by omega
      exact ih (k + 1) (by rw [heq]; exact h)

theorem ceilSqrtAux_min (n : Nat) : ∀ (fuel k : Nat), (∀ i, i < k → i * i < n) →
    ∀ j, n ≤ j * j → ceilSqrtAux n k fuel ≤ j := by
  intro fuel
  induction fuel with
  | zero =>
    intro k hinv j hj
    rw [ceilSqrtAux]
    by_contra hlt
    have := hinv j (by omega)
    omega
  | succ fuel ih =>
    intro k hinv j hj
    rw [ceilSqrtAux]
    by_cases hk : n ≤ k * k
    · rw [if_pos hk]
      by_contra hlt
      have := hinv j (by omega)
      omega
    · rw [if_neg hk]
      refine ih (k + 1) (fun i hi => ?_) j hj
      rcases Nat.lt_succ_iff_lt_or_eq.mp hi with h | rfl
      · exact hinv i h
      · omega

theorem ceilSqrt_ge (n : Nat) : n ≤ ceilSqrt n * ceilSqrt n := by
  refine ceilSqrtAux_ge n n 0 ?_
  simp only [Nat.zero_add]
  match n with
  | 0 => exact Nat.le_refl 0
  | m + 1 => exact Nat.le_mul_of_pos_left (m + 1) (by omega)

theorem ceilSqrt_min (n j : Nat) (h : n ≤ j * j) : ceilSqrt n ≤ j :=
  ceilSqrtAux_min n n 0 (fun i hi => absurd hi (Nat.not_lt_zero i)) j h

theorem one_le_two_pow_nat (j : Nat) : 1 ≤ 2 ^ j := Nat.one_le_two_pow

/-- C6: for `n ≥ 1` tiles of square edge `t`, `lookup_size` succeeds and
returns a power of two that is at least `ceilSqrt n * t` and is the least
power of two with that property; `ceilSqrt` is pinned down as the true
integer ceiling of the square root (least `k` with `n ≤ k * k`), and
`lookup_size 2 16 16 = 32`. -/
theorem crushtileset_C6 :
    (∀ n t : Nat, 1 ≤ n →
      ∃ k, lookup_size n t t = .ok (2 ^ k) ∧
        ceilSqrt n * t ≤ 2 ^ k ∧
        ∀ j, ceilSqrt n * t ≤ 2 ^ j → 2 ^ k ≤ 2 ^ j) ∧
    lookup_size 2 16 16 = .ok 32 ∧
    (∀ n, n ≤ ceilSqrt n * ceilSqrt n) ∧
    (∀ n j, n ≤ j * j → ceilSqrt n ≤ j) := by
  refine ⟨?_, by decide, ceilSqrt_ge, ceilSqrt_min⟩
  intro n t _
  have hls : lookup_size n t t = .ok (grow (ceilSqrt n * t)) := by
    unfold lookup_size
    rw [if_neg (by simp)]
  set ts := ceilSqrt n * t with hts
  by_cases h0 : ts = 0
  · refine ⟨0, ?_, by omega, fun j _ => one_le_two_pow_nat j⟩
    rw [hls, h0]
    rfl
  · obtain ⟨k, hk⟩ := growF_pow ts ts 0
    have hpow : grow ts = 2 ^ k := by
      unfold grow
      simpa using hk
    refine ⟨k, by rw [hls, hpow], ?_, ?_⟩
    · rw [← hpow]
      exact growF_ge ts ts 1 (by omega) (by omega)
    · intro j hj
      have hlt : grow ts < 2 * ts := growF_lt ts ts 1 (by omega) (by omega)
      have : (2 : Nat) ^ k < 2 ^ (j + 1) := by
        rw [← hpow, pow_succ]
        omega
      have hkj : k < j + 1 := by
        by_contra hge
        exact absurd this (by
          have := Nat.pow_le_pow_right (show 1 ≤ 2 by omega) (show j + 1 ≤ k by omega)
          omega)
      exact Nat.pow_le_pow_right (by omega) (by omega)

/-- C6, witness: the atlas-size properties at `n = 2`, `t = 16`. -/
theorem crushtileset_C6_witness :
    1 ≤ 2 ∧
      ∃ k, lookup_size 2 16 16 = .ok (2 ^ k) ∧
        ceilSqrt 2 * 16 ≤ 2 ^ k ∧
        ∀ j, ceilSqrt 2 * 16 ≤ 2 ^ j → 2 ^ k ≤ 2 ^ j :=
  ⟨by decide, crushtileset_C6.1 2 16 (by decide)⟩


theorem find_tile_nat (x cols w h : Nat) (hx : 1 ≤ x) :
    find_tile (x : Int) (cols : Int) (w : Int) (h : Int) =
      ((((x - 1) % cols * w : Nat) : Int), (((x - 1) / cols * h : Nat) : Int)) := by
  unfold find_tile
  have hx1 : (x : Int) - 1 = ((x - 1 : Nat) : Int) := by omega
  rw [hx1, ← Int.ofNat_fmod, ← Int.ofNat_fdiv]
  simp [Int.natCast_mul]

theorem placementsAux_eq (cols w h c r : Nat) (hc : 0 < c) (hr : r < w) :
    ∀ (used : List Int) (i : Nat) (d : Int), i < c →
    placementsAux (cols : Int) (w : Int) (h : Int) ((c * w + r : Nat) : Int) used
        (((w * i : Nat) : Int), d) =
      used.enum.map (fun ki =>
        (find_tile ki.2 (cols : Int) (w : Int) (h : Int),
          (((w * ((i + ki.1) % c) : Nat) : Int),
            d + (h : Int) * (((i + ki.1) / c : Nat) : Int)))) := by
  intro used
  induction used with
  | nil => intro i d _; rfl
  | cons item rest ih =>
    intro i d hi
    rw [placementsAux, List.enum_cons', List.map_cons, List.map_map]
    have hhead : ((((w * i : Nat) : Int)), d) =
        (((w * ((i + 0) % c) : Nat) : Int), d + (h : Int) * (((i + 0) / c : Nat) : Int)) := by
      rw [Nat.add_zero, Nat.mod_eq_of_lt hi, Nat.div_eq_of_lt hi]
      simp
    rw [List.cons_eq_cons]
    refine ⟨by rw [← hhead], ?_⟩
    by_cases hwrap : i + 1 = c
    · have hcond : ((w * i : Nat) : Int) + (w : Int) + (w : Int) > ((c * w + r : Nat) : Int) := by
        have hcn : w * i + w + w = c * w + w := by
          rw [← hwrap]
          ring
        have hn : c * w + r < w * i + w + w := by omega
        have hn2 : ((c * w + r : Nat) : Int) < ((w * i + w + w : Nat) : Int) := by
          exact_mod_cast hn
        have hcast : ((w * i : Nat) : Int) + (w : Int) + (w : Int) =
            ((w * i + w + w : Nat) : Int) := by push_cast; ring
        rw [hcast]
        exact hn2
      rw [if_pos hcond]
      have hstart : placementsAux (cols : Int) (w : Int) (h : Int) ((c * w + r : Nat) : Int) rest
            (0, d + (h : Int)) =
          placementsAux (cols : Int) (w : Int) (h : Int) ((c * w + r : Nat) : Int) rest
            ((((w * 0 : Nat) : Int)), d + (h : Int)) := by
        norm_num
      rw [hstart, ih 0 (d + (h : Int)) hc]
      refine List.map_congr_left ?_
      intro ki hki
      obtain ⟨k, it⟩ := ki
      simp only [Function.comp_apply, Prod.map_apply, id_eq]
      have hik : i + (k + 1) = c + k := by omega
      have h1 : (0 + k) % c = (i + (k + 1)) % c := by
        rw [hik, Nat.zero_add, Nat.add_mod_left]
      have h2 : (i + (k + 1)) / c = (0 + k) / c + 1 := by
        rw [hik, Nat.zero_add, Nat.add_comm c k, Nat.add_div_right _ hc]
      rw [← h1, h2, Prod.mk.injEq]
      refine ⟨rfl, ?_⟩
      rw [Prod.mk.injEq]
      refine ⟨rfl, ?_⟩
      push_cast
      ring
    · have hc2 : i + 2 ≤ c := by omega
      have hn : w * i + w + w ≤ c * w + r := by
        have : w * i + w + w = w * (i + 2) := by ring
        rw [this]
        calc w * (i + 2) ≤ w * c := Nat.mul_le_mul_left w hc2
        _ = c * w := Nat.mul_comm w c
        _ ≤ c * w + r := Nat.le_add_right _ r
      have hcond : ¬(((w * i : Nat) : Int) + (w : Int) + (w : Int) >
          ((c * w + r : Nat) : Int)) := by
        have hn2 : ((w * i + w + w : Nat) : Int) ≤ ((c * w + r : Nat) : Int) := by
          exact_mod_cast hn
        have hcast : ((w * i : Nat) : Int) + (w : Int) + (w : Int) =
            ((w * i + w + w : Nat) : Int) := by push_cast; ring
        rw [hcast]
        exact not_lt.mpr hn2
      rw [if_neg hcond]
      have hstep : ((w * i : Nat) : Int) + (w : Int) = ((w * (i + 1) : Nat) : Int) := by
        push_cast
        ring
      rw [hstep, ih (i + 1) d (by omega)]
      refine List.map_congr_left ?_
      intro ki hki
      obtain ⟨k, it⟩ := ki
      simp only [Function.comp_apply, Prod.map_apply, id_eq]
      have hsh : i + 1 + k = i + (k + 1) := by omega
      rw [hsh]

/-- C7: during repacking with `c = size / tile_width` output columns, the
k-th used index `x` (ascending order) is copied from source corner
`((x-1) mod columns * w, (x-1) div columns * h)` to output corner
`(w * (k mod c), h * (k div c))` — consecutive cells left-to-right then
top-to-bottom from `(0,0)`; concretely, with 16-by-16 tiles in a 10-column
tileset crushed into a 32-by-32 atlas, tile 7 is copied from `(96, 0)` to
cell `(0, 0)` and tile 42 from `(16, 64)` to `(16, 0)`. -/
theorem crushtileset_C7 :
    (∀ (used : List Nat) (ts : TilesetDoc) (c size : Nat),
      0 < ts.width → c = size / ts.width → 0 < c → (∀ x ∈ used, 1 ≤ x) →
      create_output_texture ts (used.map Int.ofNat) size =
        used.enum.map (fun ki =>
          (((((ki.2 - 1) % columnsVal ts * ts.width : Nat) : Int),
            ((((ki.2 - 1) / columnsVal ts * ts.height : Nat) : Int))),
           ((((ts.width * (ki.1 % c) : Nat) : Int)),
            (((ts.height * (ki.1 / c) : Nat) : Int)))))) ∧
    create_output_texture tsB [7, 42] 32 = [((96, 0), (0, 0)), ((16, 64), (16, 0))] := by
  constructor
  · intro used ts c size hw hcdef hc hused
    unfold create_output_texture
    have hsize : size = c * ts.width + size % ts.width := by
      rw [hcdef, Nat.mul_comm]
      exact (Nat.div_add_mod size ts.width).symm
    rw [hsize]
    have h0 : ((0 : Int), (0 : Int)) = ((((ts.width * 0 : Nat)) : Int), (0 : Int)) := by
      simp
    rw [h0, placementsAux_eq (columnsVal ts) ts.width ts.height c (size % ts.width) hc
      (Nat.mod_lt size hw) (used.map Int.ofNat) 0 0 hc]
    rw [List.enum_map, List.map_map]
    refine List.map_congr_left ?_
    intro ki hki
    obtain ⟨k, x⟩ := ki
    have hx : 1 ≤ x := hused x (by
      rw [List.mk_mem_enum_iff_getElem?] at hki
      exact List.getElem?_mem hki)
    simp only [Function.comp_apply, Prod.map_apply, id_eq, Int.ofNat_eq_natCast]
    rw [find_tile_nat x (columnsVal ts) ts.width ts.height hx]
    rw [Prod.mk.injEq]
    refine ⟨rfl, ?_⟩
    rw [Nat.zero_add, Prod.mk.injEq]
    refine ⟨rfl, ?_⟩
    push_cast
    ring
  · decide

/-- C7, witness: the placement law applied at Scenario B's tileset with
`used = [7, 42]`, atlas size 32. -/
theorem crushtileset_C7_witness :
    (∀ x ∈ [7, 42], (1 : Nat) ≤ x) ∧
    create_output_texture tsB ([7, 42].map Int.ofNat) 32 =
      [((96, 0), (0, 0)), ((16, 64), (16, 0))] := by
  refine ⟨by decide, ?_⟩
  rw [crushtileset_C7.1 [7, 42] tsB 2 32 (by decide) (by decide) (by decide) (by decide)]
  decide

/-- C9 (amended): on the decode side, an unrecognized compression tag on a
base64 layer fails with an error carrying both the tag and the offending
layer's id, while an unrecognized encoding tag fails with an error carrying
only the encoding — the layer id does not appear in it. -/
theorem crushtileset_C9_amended :
    ∀ (Z : Codecs) (lid lname : String) (lw lh : Nat) (txt : List Char),
      (∀ ctag : String, ctag ∉ ["none", "zlib", "gzip", "zstd"] →
        get_data Z (oneLayerMap lid lname lw lh "base64" (some ctag) txt) =
          .error (.unsupportedCompression ctag lid)) ∧
      (∀ etag : String, etag ∉ ["csv", "base64"] →
        get_data Z (oneLayerMap lid lname lw lh etag none txt) =
          .error (.unableToParse etag)) := by
  intro Z lid lname lw lh txt
  constructor
  · intro ctag hc
    simp only [List.mem_cons, List.not_mem_nil, or_false, not_or] at hc
    obtain ⟨h1, h2, h3, h4⟩ := hc
    simp only [oneLayerMap, get_data, mapExcept, decodeLayer, Option.getD, if_true]
    rw [if_neg h1, if_neg h2, if_neg h3, if_neg h4]
    rfl
  · intro etag he
    simp only [List.mem_cons, List.not_mem_nil, or_false, not_or] at he
    obtain ⟨h1, h2⟩ := he
    simp only [oneLayerMap, get_data, mapExcept, decodeLayer]
    rw [if_neg h1, if_neg h2]
    rfl

/-- C9, counterexample: for an unrecognized encoding tag the decode error
cannot name the offending layer — two maps identical except for the layer id
produce the very same error value, which carries only the tag `"hex"`. -/
theorem crushtileset_C9_counterexample :
    get_data idCodecs (oneLayerMap "1" "ground" 1 1 "hex" none "0\n".toList) =
        .error (.unableToParse "hex") ∧
      get_data idCodecs (oneLayerMap "2" "ground" 1 1 "hex" none "0\n".toList) =
        .error (.unableToParse "hex") ∧
      (oneLayerMap "1" "ground" 1 1 "hex" none "0\n".toList).layers.map Layer.id ≠
        (oneLayerMap "2" "ground" 1 1 "hex" none "0\n".toList).layers.map Layer.id := by
  refine ⟨by decide, by decide, by decide⟩

/-- C9, witness: the amended error behaviour at concrete bad tags. -/
theorem crushtileset_C9_witness :
    ("lzma" : String) ∉ ["none", "zlib", "gzip", "zstd"] ∧
      ("hex" : String) ∉ ["csv", "base64"] ∧
      get_data idCodecs (oneLayerMap "7" "ground" 1 1 "base64" (some "lzma") "AA==".toList) =
        .error (.unsupportedCompression "lzma" "7") ∧
      get_data idCodecs (oneLayerMap "7" "ground" 1 1 "hex" none "00".toList) =
        .error (.unableToParse "hex") :=
  ⟨by decide, by decide,
    (crushtileset_C9_amended idCodecs "7" "ground" 1 1 "AA==".toList).1 "lzma" (by decide),
    (crushtileset_C9_amended idCodecs "7" "ground" 1 1 "00".toList).2 "hex" (by decide)⟩

/-- C10: `Tileset.crush` first calls `remove_terrains`, which unconditionally
does `self.root.remove(self.root.find('terraintypes'))`; on a tileset
document with no `terraintypes` element `find` returns `None` and `remove`
raises `ValueError`, so crushing such a tileset always fails. -/
theorem crushtileset_C10 :
    ∀ (ts : TilesetDoc) (used : List Nat) (size : Nat) (tex tsx : String),
      ts.terraintypes = none →
      tilesetCrush ts used size tex tsx = .error .valueError := by
  intro ts used size tex tsx h
  unfold tilesetCrush remove_terrains
  rw [h]

/-- C10, witness: crushing a concrete terrains-free tileset fails. -/
theorem crushtileset_C10_witness :
    tsNoTerrain.terraintypes = none ∧
      tilesetCrush tsNoTerrain [1] 16 "out.png" "out.tsx" = .error .valueError :=
  ⟨rfl, crushtileset_C10 tsNoTerrain [1] 16 "out.png" "out.tsx" rfl⟩

/-- C2, evaluation: on Scenario A's map (grid `[[0,3,0],[5,3,0]]`),
`Map.discover_used` returns `[0, 3, 5]` — the reserved empty index 0 is
collected along with the real tiles, since the source never excludes it. -/
theorem crushtileset_C2_eval : discover_used idCodecs mapA = .ok [0, 3, 5] := by decide

/-- C3, evaluation: rewriting Scenario A's map through `Map.crush` with the
used set `[0, 3, 5]` (exactly what discovery returns for it) turns the grid
`[[0,3,0],[5,3,0]]` into `[[1,2,1],[3,2,1]]` — the 0 cells are remapped to 1
rather than passing through unchanged — and re-encodes it as CSV, the
layer's original encoding. -/
theorem crushtileset_C3_eval :
    (mapCrush idCodecs [0, 3, 5] "out.tsx" mapA).map (fun m => m.layers.map Layer.text) =
      .ok ["1,2,1,\n3,2,1\n".toList] := by decide

/-- C5, evaluation: on a map whose only grid is all zeros the pipeline does
not fail at all: the discovered used set is `[0]` (never empty, never
checked), and `do_crushing`'s in-memory core completes. -/
theorem crushtileset_C5_eval :
    discover_used idCodecs mapZero = .ok [0] ∧
      (do_crushing_pure idCodecs mapZero tsB "out.tsx" "out.png").isOk = true := by
  exact ⟨by decide, by decide⟩
